import Mathlib

/-
  Verification of the "Tesseract of Time" generative piece.

  Shallow embedding of the two sub-engines:
  - the hypercube engine of src/sketch.js (4D vertex/edge topology, plane
    rotation, velocity-responsive rotation speed, bounded trail history,
    edge serialization with undefined-endpoint guards);
  - the panel-flip engine of src/main.js (panel flip state machine,
    triggerFlip, updateFlips, idle auto-cycling, buildPanels text lists).

  Machine floats are modelled as exact rationals (ℚ) except where a claim is
  explicitly about real trigonometric arithmetic (rotate4D), where ℝ is used.
-/

/-! ## Hypercube engine (src/sketch.js) -/

/-- The 16 hypercube vertices generated by `initTesseract` (sketch.js 59-65):
coordinate `d` of vertex `a` is `+1` when bit `d` of `a` is set, else `-1`. -/
def verts4D : List (List ℤ) :=
  (List.range 16).map (fun a =>
    (List.range 4).map (fun d => if (a >>> d) % 2 = 1 then (1 : ℤ) else -1))

/-- Coordinate `k` of vertex `i`, i.e. the JS expression `verts4D[i][k]`. -/
def vertCoord (i k : ℕ) : ℤ := (verts4D.getD i []).getD k 0

/-- The `diffs` counter of `initTesseract` (sketch.js 69-72): the number of
coordinates in which vertices `i` and `j` differ. -/
def hammingDiffs (i j : ℕ) : ℕ :=
  ((List.range 4).filter (fun k => vertCoord i k ≠ vertCoord j k)).length

/-- The edge list generated by `initTesseract` (sketch.js 67-75): all pairs
`(i, j)` with `i < j` whose vertices differ in exactly one coordinate. -/
def edges : List (ℕ × ℕ) :=
  ((List.range 16).map (fun i =>
    ((List.range 16).filter (fun j => i < j)).filterMap (fun j =>
      if hammingDiffs i j = 1 then some (i, j) else none))).flatten

/-- Number of edges in which vertex `i` appears (as either endpoint). -/
def edgeDegree (i : ℕ) : ℕ :=
  (edges.filter (fun e => e.1 = i ∨ e.2 = i)).length

/-- C1: `initTesseract` generates exactly 16 vertices, each a 4-array with
every coordinate equal to `+1` or `-1`, and exactly 32 edges, each joining
vertices at Hamming distance exactly 1, with every vertex index appearing in
exactly 4 edges.  (Determinism is inherent: the embedding is a pure
definition with no random input.) -/
theorem c1_initTesseract_topology :
    verts4D.length = 16 ∧
    (∀ v ∈ verts4D, v.length = 4 ∧ ∀ c ∈ v, c = 1 ∨ c = -1) ∧
    edges.length = 32 ∧
    (∀ e ∈ edges, e.1 < 16 ∧ e.2 < 16 ∧ e.1 < e.2 ∧ hammingDiffs e.1 e.2 = 1) ∧
    (∀ i ∈ List.range 16, edgeDegree i = 4) := by
  decide

/-- Concrete instantiation of the bounded parts of `c1_initTesseract_topology`
at vertex 0 and edge `(0, 1)`. -/
theorem c1_initTesseract_topology_witness :
    ((0, 1) ∈ edges) ∧ (hammingDiffs 0 1 = 1) ∧ (edgeDegree 0 = 4) := by
  refine ⟨by decide, ?_, ?_⟩
  · exact (c1_initTesseract_topology.2.2.2.1 (0, 1) (by decide)).2.2.2
  · exact c1_initTesseract_topology.2.2.2.2 0 (by decide)

/-- A rotated 4D point `[x, y, z, w]`. -/
structure V4 where
  x : ℝ
  y : ℝ
  z : ℝ
  w : ℝ

/-- The plane-rotation helper `rotate4D(v, plane, t)` (sketch.js 221-234):
applies a planar rotation by angle `t` to the two coordinates named by
`plane`, leaving the other two unchanged; an unknown plane name returns `v`
unchanged (the switch default). -/
noncomputable def rotate4D (v : V4) (plane : String) (t : ℝ) : V4 :=
  let c := Real.cos t
  let s := Real.sin t
  if plane = "xy" then ⟨v.x * c - v.y * s, v.x * s + v.y * c, v.z, v.w⟩
  else if plane = "xz" then ⟨v.x * c - v.z * s, v.y, v.x * s + v.z * c, v.w⟩
  else if plane = "xw" then ⟨v.x * c - v.w * s, v.y, v.z, v.x * s + v.w * c⟩
  else if plane = "yz" then ⟨v.x, v.y * c - v.z * s, v.y * s + v.z * c, v.w⟩
  else if plane = "yw" then ⟨v.x, v.y * c - v.w * s, v.z, v.y * s + v.w * c⟩
  else if plane = "zw" then ⟨v.x, v.y, v.z * c - v.w * s, v.z * s + v.w * c⟩
  else v

/-- Euclidean 4-norm of a 4D point. -/
noncomputable def norm4 (v : V4) : ℝ :=
  Real.sqrt (v.x ^ 2 + v.y ^ 2 + v.z ^ 2 + v.w ^ 2)

/-- C8: for every 4-vector, every plane name among the six rotation planes,
and every angle, `rotate4D` preserves the Euclidean 4-norm exactly over real
arithmetic (by `cos² + sin² = 1`). -/
theorem c8_rotate4D_norm_preserving (v : V4) (plane : String) (t : ℝ)
    (h : plane ∈ (["xy", "xz", "xw", "yz", "yw", "zw"] : List String)) :
    norm4 (rotate4D v plane t) = norm4 v := by
  have hp : Real.sin t ^ 2 + Real.cos t ^ 2 = 1 := Real.sin_sq_add_cos_sq t
  simp only [List.mem_cons, List.not_mem_nil, or_false] at h
  rcases h with h | h | h | h | h | h <;> subst h <;>
      simp only [rotate4D, norm4, String.reduceEq, reduceIte] <;> congr 1
  · linear_combination (v.x ^ 2 + v.y ^ 2) * hp
  · linear_combination (v.x ^ 2 + v.z ^ 2) * hp
  · linear_combination (v.x ^ 2 + v.w ^ 2) * hp
  · linear_combination (v.y ^ 2 + v.z ^ 2) * hp
  · linear_combination (v.y ^ 2 + v.w ^ 2) * hp
  · linear_combination (v.z ^ 2 + v.w ^  2) * hp

/-- Concrete instantiation of `c8_rotate4D_norm_preserving` at the vertex
`(1, 1, 1, 1)`, plane `xy`, angle `0`. -/
theorem c8_rotate4D_norm_preserving_witness :
    ("xy" ∈ (["xy", "xz", "xw", "yz", "yw", "zw"] : List String)) ∧
    norm4 (rotate4D ⟨1, 1, 1, 1⟩ "xy" 0) = norm4 ⟨1, 1, 1, 1⟩ :=
  ⟨by decide, c8_rotate4D_norm_preserving ⟨1, 1, 1, 1⟩ "xy" 0 (by decide)⟩

/-- p5.js `map(n, start1, stop1, start2, stop2)` without the optional
`withinBounds` flag: pure linear interpolation, NOT constrained to the output
range (p5 documented behavior; the call-sites at sketch.js 156, 216 and 289
pass `true` to get the constrained variant, the one at line 110 does not). -/
def p5map (n start1 stop1 start2 stop2 : ℚ) : ℚ :=
  start2 + (stop2 - start2) * ((n - start1) / (stop1 - start1))

/-- p5.js `constrain(n, low, high) = max(min(n, high), low)`. -/
def constrain (n low high : ℚ) : ℚ := max (min n high) low

/-- The rotation rate of the draw tick (sketch.js 110):
`baseSpeed = 0.0015 + map(dist(mx, my, pmouseX, pmouseY), 0, 60, 0, 0.02)`,
as a function of the pointer displacement since the last tick. -/
def baseSpeed (displacement : ℚ) : ℚ :=
  0.0015 + p5map displacement 0 60 0 0.02

/-- The C7 claim's version of the rotation rate, written from the spec's
words: `0.0015` plus the image of the displacement under the CLAMPED linear
mapping `[0, 60] → [0, 0.02]` (i.e. p5 `map` with `withinBounds = true`). -/
def baseSpeedSpecClamped (displacement : ℚ) : ℚ :=
  0.0015 + constrain (p5map displacement 0 60 0 0.02) 0 0.02

/-- C7 counterexample: at displacement 120 the code computes
`baseSpeed = 0.0415`, which differs from the claimed clamped value `0.0215`
and exceeds the claimed bound `0.0215`: `map` at sketch.js 110 is called
without the `withinBounds` flag, so it extrapolates past 60. -/
theorem c7_baseSpeed_counterexample :
    baseSpeed 120 = 0.0415 ∧ baseSpeedSpecClamped 120 = 0.0215 ∧
    ¬ baseSpeed 120 ≤ 0.0215 := by
  refine ⟨?_, ?_, ?_⟩ <;>
    norm_num [baseSpeed, baseSpeedSpecClamped, p5map, constrain, min_def, max_def]

/-- C7 amended: `baseSpeed` equals `0.0015` plus the UNCLAMPED linear image
`displacement * (0.02 / 60)`; it agrees with the clamped mapping of the claim
for displacements in `[0, 60]`, but strictly exceeds `0.0215` for every
displacement greater than 60. -/
theorem c7_baseSpeed_amended (displacement : ℚ) :
    baseSpeed displacement = 0.0015 + displacement * (0.02 / 60) ∧
    (0 ≤ displacement → displacement ≤ 60 →
      baseSpeed displacement = baseSpeedSpecClamped displacement) ∧
    (60 < displacement → 0.0215 < baseSpeed displacement) := by
  refine ⟨by norm_num [baseSpeed, p5map]; ring, fun h0 h60 => ?_, fun h60 => ?_⟩
  · have hle : displacement * (1 / 3000) ≤ 0.02 := by nlinarith
    have hge : (0 : ℚ) ≤ displacement * (1 / 3000) := by nlinarith
    simp only [baseSpeed, baseSpeedSpecClamped, p5map, constrain]
    rw [min_eq_left (by nlinarith), max_eq_left (by nlinarith)]
  · have : (0.02 : ℚ) < displacement * (1 / 3000) := by nlinarith
    simp only [baseSpeed, p5map]
    nlinarith

/-- Concrete instantiation of `c7_baseSpeed_amended` at displacement 30
(mid-range: agrees with the clamped mapping) discharging its hypotheses. -/
theorem c7_baseSpeed_amended_witness :
    baseSpeed 30 = 0.0015 + 30 * (0.02 / 60) ∧
    baseSpeed 30 = baseSpeedSpecClamped 30 := by
  have h := c7_baseSpeed_amended 30
  exact ⟨h.1, h.2.1 (by norm_num) (by norm_num)⟩

/-! ### Trail history (bounded FIFO) -/

/-- `HISTORY_MAX` (sketch.js 13). -/
def HISTORY_MAX : ℕ := 42

/-- One tick's history update (sketch.js 149-150):
`history.push(frame); if (history.length > HISTORY_MAX) history.shift();`.
The list head is the oldest retained frame (`shift` removes the head,
`push` appends at the end). -/
def pushFrame {α : Type} (history : List α) (frame : α) : List α :=
  let h := history ++ [frame]
  if HISTORY_MAX < h.length then h.tail else h

set_option maxRecDepth 100000 in
/-- C5: the trail history is a bounded FIFO: a tick keeps the length at most
42, appends the frame without eviction while under the bound, evicts exactly
the oldest entry when full, and 50 ticks from the empty history (frames
labelled by tick number 1..50) leave exactly 42 frames whose oldest is the
one captured at tick 9. -/
theorem c5_history_bounded_fifo :
    (∀ (h : List ℕ) (f : ℕ), h.length ≤ HISTORY_MAX →
      (pushFrame h f).length ≤ HISTORY_MAX) ∧
    (∀ (h : List ℕ) (f : ℕ), h.length < HISTORY_MAX →
      pushFrame h f = h ++ [f]) ∧
    (∀ (h : List ℕ) (f : ℕ), h.length = HISTORY_MAX →
      pushFrame h f = h.tail ++ [f]) ∧
    (((List.range 50).map (fun k => k + 1)).foldl pushFrame []).length
      = HISTORY_MAX ∧
    (((List.range 50).map (fun k => k + 1)).foldl pushFrame []).head?
      = some 9 := by
  refine ⟨fun h f hle => ?_, fun h f hlt => ?_, fun h f heq => ?_, by decide, by decide⟩
  · simp only [pushFrame]
    split
    · simp only [List.length_tail, List.length_append, List.length_singleton]
      omega
    · next hgt =>
      simp only [List.length_append, List.length_singleton] at hgt ⊢
      omega
  · simp only [pushFrame]
    rw [if_neg]
    simp only [List.length_append, List.length_singleton]
    omega
  · simp only [pushFrame]
    rw [if_pos (by simp only [List.length_append, List.length_singleton]; omega)]
    cases h with
    | nil => simp [HISTORY_MAX] at heq
    | cons a t => simp

/-- Concrete instantiation of `c5_history_bounded_fifo` for a single tick on
the empty history. -/
theorem c5_history_bounded_fifo_witness :
    (pushFrame ([] : List ℕ) 1).length ≤ HISTORY_MAX ∧
    pushFrame ([] : List ℕ) 1 = [1] :=
  ⟨c5_history_bounded_fifo.1 [] 1 (by decide),
   c5_history_bounded_fifo.2.1 [] 1 (by decide)⟩

/-! ### Edge drawing / serialization guards -/

/-- A projected 2D point (the `x`/`y` fields of `project4Dto2D`'s result; the
retained `depth`/`w` fields play no role in edge drawing or serialization). -/
structure Pt where
  x : ℚ
  y : ℚ
deriving DecidableEq

/-- The per-edge guard shared by the draw loop (sketch.js 162-167) and
`serializeFrame` (sketch.js 258-263): look up both projected endpoints of
edge `e`; if either is undefined (`!a || !b`), the edge contributes nothing
(`continue`), otherwise it contributes the segment `(a, b)`.  `points2D` maps
a vertex index to its projected point, `none` standing for JS `undefined`. -/
def segOfEdge (points2D : ℕ → Option Pt) (e : ℕ × ℕ) : Option (Pt × Pt) :=
  match points2D e.1, points2D e.2 with
  | some a, some b => some (a, b)
  | _, _ => none

/-- The segments drawn by the edge loop of `draw` (sketch.js 162-167). -/
def drawnEdges (points2D : ℕ → Option Pt) : List (Pt × Pt) :=
  edges.filterMap (segOfEdge points2D)

/-- `serializeFrame(points2D)` (sketch.js 255-265): the segment list captured
into the TrailFrame, with the same undefined-endpoint guard. -/
def serializeFrame (points2D : ℕ → Option Pt) : List (Pt × Pt) :=
  edges.filterMap (segOfEdge points2D)

/-- C9: an edge one of whose projected endpoints is undefined contributes no
segment (it is omitted from both the drawn segments and the serialized
TrailFrame, with no fault — the guard is total); an edge with both endpoints
defined contributes its segment to both; and every drawn/captured segment
comes from some edge whose endpoints are both defined. -/
theorem c9_undefined_endpoint_skipped (points2D : ℕ → Option Pt) :
    (∀ e ∈ edges, (points2D e.1 = none ∨ points2D e.2 = none) →
      segOfEdge points2D e = none) ∧
    (∀ e ∈ edges, ∀ a b, points2D e.1 = some a → points2D e.2 = some b →
      (a, b) ∈ drawnEdges points2D ∧ (a, b) ∈ serializeFrame points2D) ∧
    (∀ s ∈ drawnEdges points2D, ∃ e ∈ edges, segOfEdge points2D e = some s) ∧
    (∀ s ∈ serializeFrame points2D, ∃ e ∈ edges,
      segOfEdge points2D e = some s) := by
  refine ⟨fun e _ hnone => ?_, fun e he a b ha hb => ?_, fun s hs => ?_,
    fun s hs => ?_⟩
  · rcases hnone with h | h <;> simp [segOfEdge, h]
  · have hseg : segOfEdge points2D e = some (a, b) := by simp [segOfEdge, ha, hb]
    constructor
    · exact List.mem_filterMap.mpr ⟨e, he, hseg⟩
    · exact List.mem_filterMap.mpr ⟨e, he, hseg⟩
  · exact List.mem_filterMap.mp hs
  · exact List.mem_filterMap.mp hs

/-- Concrete instantiation of `c9_undefined_endpoint_skipped`: with vertex 0
projected to `undefined` and all others defined, edge `(0, 1)` is skipped
while edge `(2, 3)` is drawn and captured. -/
theorem c9_undefined_endpoint_skipped_witness :
    segOfEdge (fun i => if i = 0 then none else some ⟨0, 0⟩) (0, 1) = none ∧
    (⟨0, 0⟩, ⟨0, 0⟩) ∈ drawnEdges (fun i => if i = 0 then none else some ⟨0, 0⟩) := by
  constructor
  · exact (c9_undefined_endpoint_skipped _).1 (0, 1) (by decide) (Or.inl rfl)
  · exact ((c9_undefined_endpoint_skipped _).2.1 (2, 3) (by decide)
      ⟨0, 0⟩ ⟨0, 0⟩ rfl rfl).1

/-! ## Panel flip engine (src/main.js) -/

/-- `clamp(v, a, b) = Math.max(a, Math.min(b, v))` (main.js 10). -/
def clamp (v a b : ℚ) : ℚ := max a (min b v)

/-- `easeInOutQuad(t)` (main.js 7-9). -/
def easeInOutQuad (t : ℚ) : ℚ :=
  if t < 1 / 2 then 2 * t * t else -1 + (4 - 2 * t) * t

/-- A panel's flip sub-state (main.js 136):
`flip: { active, start, duration, axis }`. -/
structure Flip where
  active : Bool
  start : ℚ
  duration : ℚ
  axis : String
deriving DecidableEq

/-- The flip-relevant state of a panel (main.js 131-138): the candidate text
list (entries are `Option` since a JS array slot can hold `undefined`), the
current text index, the flip sub-state, and the one-shot `_swapped` flag
(initially absent, i.e. falsy).  The mesh handle and texture handle are
rendering-surface resources outside the model: `updateFlips` writes the mesh
rotation and regenerates the texture, but neither feeds back into this
state. -/
structure Panel where
  texts : List (Option String)
  current : ℕ
  flip : Flip
  swapped : Bool
deriving DecidableEq

/-- `triggerFlip(panel, speedFactor, axis)` (main.js 159-165), with the call
time `now` (JS `performance.now()`) passed explicitly: a no-op when a flip is
already active, otherwise activates a flip with
`duration = clamp(400 * (1 / speedFactor), 360, 1100)`. -/
def triggerFlip (p : Panel) (now speedFactor : ℚ) (axis : String) : Panel :=
  if p.flip.active then p
  else { p with
    flip := { active := true, start := now,
              duration := clamp (400 * (1 / speedFactor)) 360 1100,
              axis := axis } }

/-- The flip progress `t = clamp(elapsed / duration, 0, 1)` (main.js 171-172). -/
def flipT (now : ℚ) (p : Panel) : ℚ :=
  clamp ((now - p.flip.start) / p.flip.duration) 0 1

/-- The body of `updateFlips` for one panel (main.js 169-195): no-op when the
flip is inactive; otherwise, at `t ≥ 0.5` with the one-shot `_swapped` flag
unset, set the flag and cycle the text index forward (wrapping); at `t ≥ 1`,
deactivate the flip and reset the flag.  (The eased mesh rotation written at
main.js 173-176 and 191-193 and the texture regeneration at 182-185 are
drawing-surface effects that do not feed back into this state.) -/
def updateFlipStep (now : ℚ) (p : Panel) : Panel :=
  if p.flip.active = false then p
  else
    let t := flipT now p
    let p1 := if p.swapped = false ∧ 1 / 2 ≤ t then
        { p with swapped := true, current := (p.current + 1) % p.texts.length }
      else p
    if 1 ≤ t then
      { p1 with swapped := false, flip := { p1.flip with active := false } }
    else p1

/-- `updateFlips(now)` (main.js 168-196) over the panel collection. -/
def updateFlips (now : ℚ) (panels : List Panel) : List Panel :=
  panels.map (updateFlipStep now)

/-- C3: `triggerFlip` on a panel whose flip is already active is a no-op for
every speed factor and axis: duration, start, axis, active flag and current
text index all keep their pre-call values. -/
theorem c3_triggerFlip_noop_when_active (p : Panel) (now sf : ℚ) (ax : String)
    (h : p.flip.active = true) :
    (triggerFlip p now sf ax).flip.duration = p.flip.duration ∧
    (triggerFlip p now sf ax).flip.start = p.flip.start ∧
    (triggerFlip p now sf ax).flip.axis = p.flip.axis ∧
    (triggerFlip p now sf ax).flip.active = p.flip.active ∧
    (triggerFlip p now sf ax).current = p.current := by
  simp [triggerFlip, h]

/-- Concrete instantiation of `c3_triggerFlip_noop_when_active` on an active
panel. -/
theorem c3_triggerFlip_noop_when_active_witness :
    (triggerFlip ⟨[some "now", some "present"], 0, ⟨true, 5, 700, "y"⟩, false⟩
        9 (22 / 10) "x").flip.duration = 700 :=
  (c3_triggerFlip_noop_when_active
    ⟨[some "now", some "present"], 0, ⟨true, 5, 700, "y"⟩, false⟩
    9 (22 / 10) "x" rfl).1

/-- C4: on a panel whose flip is not active, `triggerFlip` with a positive
speed factor sets the duration to `clamp(400 / speedFactor, 360, 1100)`,
which always lies in `[360, 1100]` and is non-increasing in the speed
factor. -/
theorem c4_triggerFlip_duration (p : Panel) (now sf sf' : ℚ) (ax : String)
    (h : p.flip.active = false) (hsf : 0 < sf) (hle : sf ≤ sf') :
    (triggerFlip p now sf ax).flip.duration = clamp (400 / sf) 360 1100 ∧
    360 ≤ (triggerFlip p now sf ax).flip.duration ∧
    (triggerFlip p now sf ax).flip.duration ≤ 1100 ∧
    (triggerFlip p now sf' ax).flip.duration
      ≤ (triggerFlip p now sf ax).flip.duration := by
  have hsf' : 0 < sf' := lt_of_lt_of_le hsf hle
  simp only [triggerFlip, h, Bool.false_eq_true, if_false]
  refine ⟨by rw [mul_one_div], le_max_left _ _, ?_, ?_⟩
  · exact max_le (by norm_num) (min_le_left _ _)
  · have hmono : 400 * (1 / sf') ≤ 400 * (1 / sf) := by
      have := one_div_le_one_div_of_le hsf hle
      nlinarith
    exact max_le_max le_rfl (min_le_min le_rfl hmono)

/-- Concrete instantiation of `c4_triggerFlip_duration` on an inactive panel
with speed factors 2 and 4 (durations 360 and 360 after clamping,
`clamp(200, 360, 1100) = 360`). -/
theorem c4_triggerFlip_duration_witness :
    (triggerFlip ⟨[some "soon"], 0, ⟨false, 0, 700, "y"⟩, false⟩
        9 2 "x").flip.duration = clamp (400 / 2) 360 1100 ∧
    360 ≤ (triggerFlip ⟨[some "soon"], 0, ⟨false, 0, 700, "y"⟩, false⟩
        9 2 "x").flip.duration := by
  have h := c4_triggerFlip_duration
    ⟨[some "soon"], 0, ⟨false, 0, 700, "y"⟩, false⟩ 9 2 4 "x"
    rfl (by norm_num) (by norm_num)
  exact ⟨h.1, h.2.1⟩

/-- Invariant tying a mid-lifecycle panel state `p` to the state `p₀` it had
when its flip started: either the flip is still active with its start and
duration intact and the text index advanced exactly when the one-shot flag
is set, or the flip has finished with the flag reset and the index advanced
exactly once. -/
def FlipInv (p0 p : Panel) : Prop :=
  p.texts = p0.texts ∧
  ((p.flip.active = true ∧ p.flip.start = p0.flip.start ∧
      p.flip.duration = p0.flip.duration ∧
      ((p.swapped = false ∧ p.current = p0.current) ∨
       (p.swapped = true ∧ p.current = (p0.current + 1) % p0.texts.length))) ∨
   (p.flip.active = false ∧ p.swapped = false ∧
      p.current = (p0.current + 1) % p0.texts.length))

lemma updateFlipStep_inactive (now : ℚ) (p : Panel)
    (h : p.flip.active = false) : updateFlipStep now p = p := by
  simp [updateFlipStep, h]

lemma foldl_updateFlipStep_inactive (l : List ℚ) (p : Panel)
    (h : p.flip.active = false) :
    l.foldl (fun s n => updateFlipStep n s) p = p := by
  induction l with
  | nil => rfl
  | cons n l ih => simp only [List.foldl_cons, updateFlipStep_inactive n p h, ih]

lemma updateFlipStep_eq_swap_fin (now : ℚ) (p : Panel)
    (hact : p.flip.active = true)
    (hswap : p.swapped = false ∧ 1 / 2 ≤ flipT now p)
    (hone : 1 ≤ flipT now p) :
    updateFlipStep now p =
      { p with current := (p.current + 1) % p.texts.length, swapped := false,
               flip := { p.flip with active := false } } := by
  simp only [updateFlipStep]
  rw [if_neg (by simp [hact]), if_pos hswap, if_pos hone]

lemma updateFlipStep_eq_swap_mid (now : ℚ) (p : Panel)
    (hact : p.flip.active = true)
    (hswap : p.swapped = false ∧ 1 / 2 ≤ flipT now p)
    (hone : ¬ 1 ≤ flipT now p) :
    updateFlipStep now p =
      { p with current := (p.current + 1) % p.texts.length,
               swapped := true } := by
  simp only [updateFlipStep]
  rw [if_neg (by simp [hact]), if_pos hswap, if_neg hone]

lemma updateFlipStep_eq_noswap_fin (now : ℚ) (p : Panel)
    (hact : p.flip.active = true)
    (hswap : ¬ (p.swapped = false ∧ 1 / 2 ≤ flipT now p))
    (hone : 1 ≤ flipT now p) :
    updateFlipStep now p =
      { p with swapped := false,
               flip := { p.flip with active := false } } := by
  simp only [updateFlipStep]
  rw [if_neg (by simp [hact]), if_neg hswap, if_pos hone]

lemma updateFlipStep_eq_noswap_mid (now : ℚ) (p : Panel)
    (hact : p.flip.active = true)
    (hswap : ¬ (p.swapped = false ∧ 1 / 2 ≤ flipT now p))
    (hone : ¬ 1 ≤ flipT now p) :
    updateFlipStep now p = p := by
  simp only [updateFlipStep]
  rw [if_neg (by simp [hact]), if_neg hswap, if_neg hone]

lemma flipInv_step (p0 p : Panel) (now : ℚ) (h : FlipInv p0 p) :
    FlipInv p0 (updateFlipStep now p) := by
  obtain ⟨htexts, hcase⟩ := h
  rcases hcase with ⟨hact, hstart, hdur, hsub⟩ | ⟨hact, hsw, hcur⟩
  · by_cases hswap : p.swapped = false ∧ 1 / 2 ≤ flipT now p
    · have hcurr : p.current = p0.current := by
        rcases hsub with ⟨-, hc⟩ | ⟨hs, -⟩
        · exact hc
        · rw [hswap.1] at hs
          exact absurd hs (by simp)
      by_cases hone : 1 ≤ flipT now p
      · rw [updateFlipStep_eq_swap_fin now p hact hswap hone]
        exact ⟨htexts, Or.inr ⟨rfl, rfl, by simp [hcurr, htexts]⟩⟩
      · rw [updateFlipStep_eq_swap_mid now p hact hswap hone]
        exact ⟨htexts, Or.inl ⟨hact, hstart, hdur,
          Or.inr ⟨rfl, by simp [hcurr, htexts]⟩⟩⟩
    · by_cases hone : 1 ≤ flipT now p
      · have hcurr : p.current = (p0.current + 1) % p0.texts.length := by
          rcases hsub with ⟨hs, -⟩ | ⟨-, hc⟩
          · exact absurd ⟨hs, le_trans (by norm_num) hone⟩ hswap
          · exact hc
        rw [updateFlipStep_eq_noswap_fin now p hact hswap hone]
        exact ⟨htexts, Or.inr ⟨rfl, rfl, hcurr⟩⟩
      · rw [updateFlipStep_eq_noswap_mid now p hact hswap hone]
        exact ⟨htexts, Or.inl ⟨hact, hstart, hdur, hsub⟩⟩
  · rw [updateFlipStep_inactive now p hact]
    exact ⟨htexts, Or.inr ⟨hact, hsw, hcur⟩⟩

lemma flipInv_step_done (p0 p : Panel) (now : ℚ)
    (hd : 0 < p0.flip.duration) (h : FlipInv p0 p)
    (hbig : p0.flip.start + p0.flip.duration ≤ now) :
    (updateFlipStep now p).flip.active = false := by
  obtain ⟨htexts, hcase⟩ := h
  rcases hcase with ⟨hact, hstart, hdur, hsub⟩ | ⟨hact, -, -⟩
  · have hone : 1 ≤ flipT now p := by
      have hdiv : 1 ≤ (now - p.flip.start) / p.flip.duration := by
        rw [hstart, hdur, one_le_div hd]
        linarith
      simp only [flipT, clamp]
      rw [min_eq_left hdiv]
      exact le_max_right 0 1
    by_cases hswap : p.swapped = false ∧ 1 / 2 ≤ flipT now p
    · rw [updateFlipStep_eq_swap_fin now p hact hswap hone]
    · rw [updateFlipStep_eq_noswap_fin now p hact hswap hone]
  · rw [updateFlipStep_inactive now p hact]
    exact hact

lemma flipInv_foldl (p0 : Panel) (hd : 0 < p0.flip.duration) (l : List ℚ) :
    ∀ p : Panel, FlipInv p0 p →
      FlipInv p0 (l.foldl (fun s n => updateFlipStep n s) p) ∧
      ((∃ x ∈ l, p0.flip.start + p0.flip.duration ≤ x) →
        (l.foldl (fun s n => updateFlipStep n s) p).flip.active = false) := by
  induction l with
  | nil =>
    intro p h
    refine ⟨h, ?_⟩
    rintro ⟨x, hx, -⟩
    exact absurd hx (List.not_mem_nil x)
  | cons n l ih =>
    intro p h
    have hstep := flipInv_step p0 p n h
    obtain ⟨ih1, ih2⟩ := ih (updateFlipStep n p) hstep
    refine ⟨by simpa using ih1, ?_⟩
    rintro ⟨x, hx, hbig⟩
    rcases List.mem_cons.mp hx with rfl | hx'
    · have hfin := flipInv_step_done p0 p x hd h hbig
      simp only [List.foldl_cons]
      rw [foldl_updateFlipStep_inactive l _ hfin]
      exact hfin
    · simpa using ih2 ⟨x, hx', hbig⟩

/-- C2: for a panel whose flip is active (with positive duration and a
nonempty text list, as every built panel has) and whose one-shot `_swapped`
flag is unset, running `updateFlips` at any sequence of times that reaches
the flip's end (`elapsed ≥ duration`, i.e. progress `t = 1`) advances the
current text index forward by exactly one step modulo the text-list length
— never twice — and leaves the flip with `active = false` and the one-shot
flag reset. -/
theorem c2_flip_lifecycle (p : Panel) (nows : List ℚ)
    (hact : p.flip.active = true) (hsw : p.swapped = false)
    (hdur : 0 < p.flip.duration) (hlen : 0 < p.texts.length)
    (hend : ∃ x ∈ nows, p.flip.start + p.flip.duration ≤ x) :
    (nows.foldl (fun s n => updateFlipStep n s) p).flip.active = false ∧
    (nows.foldl (fun s n => updateFlipStep n s) p).swapped = false ∧
    (nows.foldl (fun s n => updateFlipStep n s) p).current
      = (p.current + 1) % p.texts.length := by
  have hinv : FlipInv p p := ⟨rfl, Or.inl ⟨hact, rfl, rfl, Or.inl ⟨hsw, rfl⟩⟩⟩
  obtain ⟨hinv', hfin⟩ := flipInv_foldl p hdur nows p hinv
  have hact' := hfin hend
  rcases hinv'.2 with ⟨ha, -, -, -⟩ | ⟨-, hs, hc⟩
  · rw [hact'] at ha
    exact absurd ha (by simp)
  · exact ⟨hact', hs, hc⟩

/-- Concrete instantiation of `c2_flip_lifecycle`: a panel with two texts and
an active flip of duration 400 started at 0, ticked at times 200 (midpoint
swap) and 500 (completion), ends inactive with the flag reset and the index
advanced from 0 to 1. -/
theorem c2_flip_lifecycle_witness :
    (([200, 500] : List ℚ).foldl (fun s n => updateFlipStep n s)
        ⟨[some "a", some "b"], 0, ⟨true, 0, 400, "y"⟩, false⟩).flip.active
      = false ∧
    (([200, 500] : List ℚ).foldl (fun s n => updateFlipStep n s)
        ⟨[some "a", some "b"], 0, ⟨true, 0, 400, "y"⟩, false⟩).swapped
      = false ∧
    (([200, 500] : List ℚ).foldl (fun s n => updateFlipStep n s)
        ⟨[some "a", some "b"], 0, ⟨true, 0, 400, "y"⟩, false⟩).current
      = (0 + 1) % 2 :=
  c2_flip_lifecycle ⟨[some "a", some "b"], 0, ⟨true, 0, 400, "y"⟩, false⟩
    [200, 500] rfl rfl (by norm_num) (by norm_num)
    ⟨500, by norm_num, by norm_num⟩

/-! ### Idle auto-cycling (main.js 286-295) -/

/-- The idle auto-flip block of `animate` (main.js 286-295), as a function of
the clock `now`, the last-interaction time, the last auto-flip time, and the
`Math.random()` draw `r`.  Returns the new `lastAutoFlip` timer and whether a
flip was triggered.  The guard is `idle > IDLE_THRESHOLD` (5000) and
`now - lastAutoFlip > AUTO_FLIP_INTERVAL` (1400), both strict; inside the
guard the timer is set to `now` whether or not `r < 0.55` fired a flip. -/
def idleAutoCycle (now lastInteraction lastAutoFlip r : ℚ) : ℚ × Bool :=
  if 5000 < now - lastInteraction ∧ 1400 < now - lastAutoFlip then
    (now, decide (r < 0.55))
  else (lastAutoFlip, false)

/-- C6 counterexample: at `now = 6000`, `lastInteraction = 1000`,
`lastAutoFlip = 0`, the claim's two conditions hold non-strictly
(`idleDuration = 5000 ≥ 5000` and `6000 ≥ 1400` elapsed), yet the code does
NOT reset the auto-flip timer: the code's guard is the strict
`idle > 5000`, so no attempt occurs at the boundary. -/
theorem c6_idle_counterexample :
    ((5000 : ℚ) ≤ 6000 - 1000 ∧ (1400 : ℚ) ≤ 6000 - 0) ∧
    (idleAutoCycle 6000 1000 0 0).1 ≠ 6000 ∧
    (idleAutoCycle 6000 1000 0 0).1 = 0 := by
  have h : idleAutoCycle 6000 1000 0 0 = (0, false) := by
    rw [idleAutoCycle, if_neg]
    rintro ⟨h1, -⟩
    norm_num at h1
  refine ⟨⟨by norm_num, by norm_num⟩, ?_, ?_⟩ <;> rw [h] <;> norm_num

/-- C6 amended: an idle auto-flip is attempted exactly when
`idleDuration > 5000` ms and strictly more than 1400 ms have elapsed since
the last attempt (strict inequalities, where the claim said `≥`); an attempt
implies the claim's non-strict conditions; whenever the strict conditions
hold the timer is reset to the current time regardless of the probability
outcome `r`; when they fail, nothing changes and no flip fires; and after a
reset at `now`, no attempt occurs at any time within the next 1400 ms —
hence at most one attempt per 1400 ms window. -/
theorem c6_idle_auto_cycle_amended (now lastInteraction lastAutoFlip r r' : ℚ) :
    ((idleAutoCycle now lastInteraction lastAutoFlip r).2 = true →
      5000 ≤ now - lastInteraction ∧ 1400 ≤ now - lastAutoFlip) ∧
    (5000 < now - lastInteraction → 1400 < now - lastAutoFlip →
      (idleAutoCycle now lastInteraction lastAutoFlip r).1 = now) ∧
    ((idleAutoCycle now lastInteraction lastAutoFlip r).1
      = (idleAutoCycle now lastInteraction lastAutoFlip r').1) ∧
    (¬ (5000 < now - lastInteraction ∧ 1400 < now - lastAutoFlip) →
      (idleAutoCycle now lastInteraction lastAutoFlip r)
        = (lastAutoFlip, false)) ∧
    (∀ now' lastInteraction' r2, now' - now ≤ 1400 →
      idleAutoCycle now' lastInteraction' now r2 = (now, false)) := by
  refine ⟨fun hfired => ?_, fun h1 h2 => ?_, ?_, fun hno => ?_,
    fun now' li' r2 hwin => ?_⟩
  · by_cases hc : 5000 < now - lastInteraction ∧ 1400 < now - lastAutoFlip
    · exact ⟨le_of_lt hc.1, le_of_lt hc.2⟩
    · rw [idleAutoCycle, if_neg hc] at hfired
      exact absurd hfired (by simp)
  · rw [idleAutoCycle, if_pos ⟨h1, h2⟩]
  · by_cases hc : 5000 < now - lastInteraction ∧ 1400 < now - lastAutoFlip
    · rw [idleAutoCycle, if_pos hc, idleAutoCycle, if_pos hc]
    · rw [idleAutoCycle, if_neg hc, idleAutoCycle, if_neg hc]
  · rw [idleAutoCycle, if_neg hno]
  · rw [idleAutoCycle, if_neg]
    rintro ⟨-, h2⟩
    linarith

/-- Concrete instantiation of `c6_idle_auto_cycle_amended`: at `now = 10000`
with last interaction and last attempt at 0, the strict conditions hold and
the timer is reset to 10000; a follow-up at 11000 (within 1400 ms) does not
attempt. -/
theorem c6_idle_auto_cycle_amended_witness :
    (idleAutoCycle 10000 0 0 0).1 = 10000 ∧
    idleAutoCycle 11000 0 10000 0 = (10000, false) := by
  have h := c6_idle_auto_cycle_amended 10000 0 0 0 1
  exact ⟨h.2.1 (by norm_num) (by norm_num),
    h.2.2.2.2 11000 0 0 (by norm_num)⟩

/-! ### buildPanels candidate text lists (main.js 111-114) -/

/-- The candidate-text preparation of `buildPanels` (main.js 111-114):
`const texts = [...cfg.texts]; if (texts.length < 2) texts.push(texts[0]);`.
Array slots are modelled as `Option String` (`none` standing for JS
`undefined`), since `texts[0]` on an empty array is `undefined` and is then
pushed as an element. -/
def panelTexts (cfgTexts : List String) : List (Option String) :=
  let texts := cfgTexts.map some
  if texts.length < 2 then texts ++ [texts.getD 0 none] else texts

/-- C10 counterexample: for a zone configuration whose candidate list is
empty, the built panel's text list has length 1 (a single `undefined`
entry), not at least 2: the guard `texts.length < 2` pushes `texts[0]`,
which is `undefined` for an empty list, leaving the length at 1. -/
theorem c10_panelTexts_counterexample :
    panelTexts [] = [none] ∧ ¬ 2 ≤ (panelTexts []).length := by
  constructor <;> decide

/-- C10 amended: for every zone configuration whose candidate list is
nonempty, the built panel's text list has length at least 2; a list with
exactly one text gets that text duplicated; a list with at least 2 texts is
kept as-is.  (A hypothetical empty configuration would instead produce the
single-`undefined` list; the four shipped configurations all carry 3
texts.) -/
theorem c10_panelTexts_at_least_two (cfgTexts : List String)
    (hne : cfgTexts ≠ []) :
    2 ≤ (panelTexts cfgTexts).length ∧
    (∀ t, cfgTexts = [t] → panelTexts cfgTexts = [some t, some t]) ∧
    (2 ≤ cfgTexts.length → panelTexts cfgTexts = cfgTexts.map some) := by
  match cfgTexts with
  | [] => exact absurd rfl hne
  | [t] =>
    refine ⟨by simp [panelTexts], fun u hu => ?_, by simp⟩
    rw [List.cons.injEq] at hu
    rw [hu.1]
    simp [panelTexts]
  | t1 :: t2 :: rest =>
    refine ⟨?_, fun u hu => by simp at hu, fun _ => ?_⟩
    · simp only [panelTexts, List.map_cons, List.length_cons]
      rw [if_neg (by simp)]
      simp
    · simp only [panelTexts, List.map_cons, List.length_cons]
      rw [if_neg (by simp)]

/-- Concrete instantiation of `c10_panelTexts_at_least_two` on the
single-text configuration `["soon"]`: the text is duplicated. -/
theorem c10_panelTexts_at_least_two_witness :
    2 ≤ (panelTexts ["soon"]).length ∧
    panelTexts ["soon"] = [some "soon", some "soon"] := by
  have h := c10_panelTexts_at_least_two ["soon"] (by simp)
  exact ⟨h.1, h.2.1 "soon" rfl⟩
